import Mathlib

/-!
Shallow embedding of the flow-field simulation in src/src/main.rs
(a nannou sketch: a grid of particles whose headings are driven by
Perlin noise).  Floating-point numbers are modelled as real numbers;
the external Perlin noise function is modelled as an abstract function
parameter of type ℕ → ℝ → ℝ → ℝ (seed, x, y).
-/

namespace FlowField

noncomputable section

/-- Configuration constants from the top of main.rs. -/
def POINT_COUNT : ℕ := 64

/-- POINT_DELTA = 0.1, the randomized position delta for each point. -/
def POINT_DELTA : ℝ := 1 / 10

/-- HEADING_NOISE_FACTOR = 15.0. -/
def HEADING_NOISE_FACTOR : ℝ := 15

/-- HEADING_NOISE_MULTIPLIER = 1.0. -/
def HEADING_NOISE_MULTIPLIER : ℝ := 1

/-- COLOR_NOISE_FACTOR = 1.0. -/
def COLOR_NOISE_FACTOR : ℝ := 1

/-- COLOR_NOISE_MULTIPLIER = 1.1. -/
def COLOR_NOISE_MULTIPLIER : ℝ := 11 / 10

/-- VELOCITY_MULTIPLIER = 0.25. -/
def VELOCITY_MULTIPLIER : ℝ := 1 / 4

/-- The source's Vector2 struct: a 2D vector of f64, modelled over ℝ. -/
@[ext] structure Vector2 where
  x : ℝ
  y : ℝ

/-- Componentwise addition, from the ops::Add impl. -/
def Vector2.add (v w : Vector2) : Vector2 :=
  Vector2.mk (v.x + w.x) (v.y + w.y)

/-- Scalar division, from the ops::Div impl. -/
def Vector2.div (v : Vector2) (s : ℝ) : Vector2 :=
  Vector2.mk (v.x / s) (v.y / s)

/-- Scalar multiplication, from the ops::Mul impl. -/
def Vector2.mul (v : Vector2) (s : ℝ) : Vector2 :=
  Vector2.mk (v.x * s) (v.y * s)

/-- Vector2::length: sqrt(powf(x, 2.0) + powf(y, 2.0)). -/
def Vector2.length (v : Vector2) : ℝ :=
  Real.sqrt (v.x ^ 2 + v.y ^ 2)

/-- Vector2::normalize, exactly as the source performs it: first
x is divided in place by the current length, and THEN y is divided
by the length recomputed on the already-mutated vector (x / len, y).
The two statements `self.x /= self.length(); self.y /= self.length();`
are sequential in-place mutations, so the second call to length sees
the new x. -/
def Vector2.normalize (v : Vector2) : Vector2 :=
  let x1 := v.x / v.length
  Vector2.mk x1 (v.y / (Vector2.mk x1 v.y).length)

/-- The divisors used by the two divisions inside Vector2::normalize.
The first division divides by the length of the input; the second by
the length of the intermediate vector (x / len, y).  The normalize
call performs a division by zero (producing a non-finite f64 value)
exactly when one of these divisors is zero. -/
def normalizeDividesByZero (v : Vector2) : Prop :=
  v.length = 0 ∨ (Vector2.mk (v.x / v.length) v.y).length = 0

/-- The source's Flow struct: one particle with a position and a velocity. -/
structure Flow where
  pos : Vector2
  vel : Vector2

/-- The noise handle built in model(): Perlin::new().set_seed(seed as u32).
The cast seed as u32 keeps only the low 32 bits of the 64-bit seed,
i.e. reduces it modulo 2^32.  The Perlin algorithm itself lives in the
nannou noise crate, outside this repository, so it is modelled as an
abstract family of sample functions indexed by the 32-bit seed. -/
def noiseOf (perlin : ℕ → ℝ → ℝ → ℝ) (seed : ℕ) : ℝ → ℝ → ℝ :=
  perlin (seed % 2 ^ 32)

/-- One particle's initial state, from the loop body in model():
pos.x = x_end * (x / POINT_COUNT + jx) with jx drawn from
gen_range(0.0..POINT_DELTA), and similarly for y; vel = (0, 0).
The two rng draws jx and jy are passed in explicitly. -/
def initFlow (xEnd yEnd : ℝ) (n : ℕ) (x y : ℕ) (jx jy : ℝ) : Flow :=
  { pos := Vector2.mk (xEnd * ((x : ℝ) / (n : ℝ) + jx))
                      (yEnd * ((y : ℝ) / (n : ℝ) + jy))
    vel := Vector2.mk 0 0 }

/-- The nested loops of model() building flow_field: for each row y
and column x in [0, n), push initFlow.  The per-particle rng draws
are supplied by jit, mapping (column, row) to the pair (jx, jy). -/
def initGrid (xEnd yEnd : ℝ) (n : ℕ) (jit : ℕ → ℕ → ℝ × ℝ) :
    List (List Flow) :=
  (List.range n).map fun y =>
    (List.range n).map fun x =>
      initFlow xEnd yEnd n x y (jit x y).1 (jit x y).2

/-- The per-particle body of update(): sample the noise at
(pos.x / x_end * freq, pos.y / y_end * freq), multiply the sample by
amp * 2.0 * PI, set vel = (sin, cos) of that angle, then
pos += vel * speed.  In the source freq = HEADING_NOISE_FACTOR,
amp = HEADING_NOISE_MULTIPLIER and speed = VELOCITY_MULTIPLIER. -/
def stepFlow (noise : ℝ → ℝ → ℝ) (xEnd yEnd freq amp speed : ℝ)
    (f : Flow) : Flow :=
  let noiseValue :=
    noise (f.pos.x / xEnd * freq) (f.pos.y / yEnd * freq) *
      (amp * 2 * Real.pi)
  let vel := Vector2.mk (Real.sin noiseValue) (Real.cos noiseValue)
  { pos := f.pos.add (vel.mul speed), vel := vel }

/-- update(): apply stepFlow to every particle of every row in place. -/
def update (noise : ℝ → ℝ → ℝ) (xEnd yEnd freq amp speed : ℝ)
    (g : List (List Flow)) : List (List Flow) :=
  g.map fun row => row.map (stepFlow noise xEnd yEnd freq amp speed)

/-- The particle stored at row i, column j of a grid, if any. -/
def gridGet (g : List (List Flow)) (i j : ℕ) : Option Flow :=
  g[i]?.bind fun row => row[j]?

/-- Modelled from the spec (section 4.3, steps 1-4): sample the noise
field at the position normalized to viewport size and scaled by the
frequency, scale the sample by heading_noise_amplitude * 2π to get an
angle, set velocity to (sin θ, cos θ), then add velocity * speed to
the position.  Used only to compare against stepFlow. -/
def specStepFlow (noise : ℝ → ℝ → ℝ) (vw vh freq amp speed : ℝ)
    (f : Flow) : Flow :=
  let angle :=
    noise (f.pos.x / vw * freq) (f.pos.y / vh * freq) *
      (amp * (2 * Real.pi))
  let vel := Vector2.mk (Real.sin angle) (Real.cos angle)
  { pos := f.pos.add (vel.mul speed), vel := vel }

/-- The per-particle body of view(): map the position to screen space
(x = pos.x * 2 - x_end, y = pos.y * 2 - y_end), normalize by viewport
and scale by the color noise factor, sample the noise there, and build
the hsl color ((sample * amp + 1) / 2, 1.0, 0.5).  In the source
freq = COLOR_NOISE_FACTOR and amp = COLOR_NOISE_MULTIPLIER. -/
def colorFor (noise : ℝ → ℝ → ℝ) (xEnd yEnd freq amp : ℝ) (f : Flow) :
    ℝ × ℝ × ℝ :=
  let x := f.pos.x * 2 - xEnd
  let y := f.pos.y * 2 - yEnd
  let x2 := x / xEnd * freq
  let y2 := y / yEnd * freq
  ((noise x2 y2 * amp + 1) / 2, 1, 1 / 2)

/-- Modelled from the spec (section 4.4): screen_x = position.x * 2 -
viewport_width, u = screen_x / viewport_width * color_noise_frequency,
hue = (noise_sample * color_noise_amplitude + 1) / 2, saturation full,
lightness mid.  Used only to compare against colorFor. -/
def specColorFor (noise : ℝ → ℝ → ℝ) (vw vh freq amp : ℝ) (f : Flow) :
    ℝ × ℝ × ℝ :=
  let screenX := f.pos.x * 2 - vw
  let screenY := f.pos.y * 2 - vh
  let u := screenX / vw * freq
  let v := screenY / vh * freq
  ((noise u v * amp + 1) / 2, 1, 1 / 2)

/-! Helper lemmas shared by several results. -/

/-- Mapping a per-particle function over the whole grid commutes with
looking up the particle at (i, j). -/
theorem gridGet_map (h : Flow → Flow) (g : List (List Flow)) (i j : ℕ) :
    gridGet (g.map fun row => row.map h) i j = (gridGet g i j).map h := by
  unfold gridGet
  cases hgi : g[i]? with
  | none => simp [List.getElem?_map, hgi]
  | some row => simp [List.getElem?_map, hgi]

/-- A vector has length 0 exactly when both components are 0. -/
theorem Vector2.length_eq_zero (v : Vector2) :
    v.length = 0 ↔ v.x = 0 ∧ v.y = 0 := by
  unfold Vector2.length
  rw [Real.sqrt_eq_zero (by positivity)]
  constructor
  · intro h
    constructor <;> nlinarith [sq_nonneg v.x, sq_nonneg v.y]
  · rintro ⟨h1, h2⟩
    rw [h1, h2]; ring

/-- The length of the vector (3, 4) is 5. -/
theorem length_three_four : (Vector2.mk 3 4).length = 5 := by
  have h : ((Vector2.mk (3:ℝ) 4).x ^ 2 + (Vector2.mk (3:ℝ) 4).y ^ 2 : ℝ)
      = 5 ^ 2 := by norm_num
  rw [Vector2.length, h]
  exact Real.sqrt_sq (by norm_num)

/-! Claims. -/

/-- Claim C1: for every particle, one tick samples the noise field at
(position.x / viewport_width * heading_noise_frequency,
position.y / viewport_height * heading_noise_frequency), multiplies
the sample by heading_noise_amplitude * 2π to get an angle θ, sets
velocity to (sin θ, cos θ), and then sets position to the old position
plus velocity * velocity_speed: update coincides with the update rule
transcribed from the spec. -/
theorem update_matches_spec (noise : ℝ → ℝ → ℝ) (vw vh freq amp speed : ℝ)
    (g : List (List Flow)) :
    update noise vw vh freq amp speed g =
      g.map fun row => row.map (specStepFlow noise vw vh freq amp speed) := by
  have h : stepFlow noise vw vh freq amp speed
      = specStepFlow noise vw vh freq amp speed := by
    funext f
    simp only [stepFlow, specStepFlow, mul_assoc]
  rw [update, h]

/-- Claim C4: the tick function is deterministic: with the noise field
built from a fixed seed, applying update to two identical grid states
(with the same viewport dimensions and parameters) produces identical
resulting positions and velocities. -/
theorem update_deterministic (perlin : ℕ → ℝ → ℝ → ℝ) (seed : ℕ)
    (vw vh freq amp speed : ℝ) (g1 g2 : List (List Flow)) (h : g1 = g2) :
    update (noiseOf perlin seed) vw vh freq amp speed g1 =
      update (noiseOf perlin seed) vw vh freq amp speed g2 := by
  rw [h]

theorem update_deterministic_witness :
    ([[{ pos := Vector2.mk 0 0, vel := Vector2.mk 0 0 }]] :
        List (List Flow)) =
      [[{ pos := Vector2.mk 0 0, vel := Vector2.mk 0 0 }]] ∧
    update (noiseOf (fun _ _ _ => 0) 42) 1 1 15 1 (1 / 4)
        [[{ pos := Vector2.mk 0 0, vel := Vector2.mk 0 0 }]] =
      update (noiseOf (fun _ _ _ => 0) 42) 1 1 15 1 (1 / 4)
        [[{ pos := Vector2.mk 0 0, vel := Vector2.mk 0 0 }]] :=
  ⟨rfl, update_deterministic (fun _ _ _ => 0) 42 1 1 15 1 (1 / 4) _ _ rfl⟩

/-- Claim C6: initialization with grid size n produces exactly n rows of
n particles each, and every tick preserves the number of rows and the
length of every row (particles are only mapped in place, never added or
removed). -/
theorem grid_shape (xEnd yEnd : ℝ) (n : ℕ) (jit : ℕ → ℕ → ℝ × ℝ) :
    (initGrid xEnd yEnd n jit).length = n ∧
    (initGrid xEnd yEnd n jit).map (fun row => row.length) =
      List.replicate n n ∧
    ∀ (noise : ℝ → ℝ → ℝ) (vw vh freq amp speed : ℝ)
      (g : List (List Flow)),
      (update noise vw vh freq amp speed g).length = g.length ∧
      (update noise vw vh freq amp speed g).map (fun row => row.length) =
        g.map (fun row => row.length) := by
  refine ⟨by simp [initGrid], ?_, ?_⟩
  · simp [initGrid, List.map_map, Function.comp_def, List.map_const']
  · intro noise vw vh freq amp speed g
    exact ⟨by simp [update],
      by simp [update, List.map_map, Function.comp_def]⟩

/-- Claim C7: the color mapping computes screen coordinates
screen_x = position.x * 2 - viewport_width and
screen_y = position.y * 2 - viewport_height, normalizes them to
u = screen_x / viewport_width * color_noise_frequency and
v = screen_y / viewport_height * color_noise_frequency, samples the
same noise field at (u, v), and yields
hue = (noise_sample * color_noise_amplitude + 1) / 2 with saturation 1
and lightness 1/2. -/
theorem colorFor_matches_spec (noise : ℝ → ℝ → ℝ) (vw vh freq amp : ℝ)
    (f : Flow) :
    colorFor noise vw vh freq amp f = specColorFor noise vw vh freq amp f ∧
    (colorFor noise vw vh freq amp f).1 =
      (noise ((f.pos.x * 2 - vw) / vw * freq)
          ((f.pos.y * 2 - vh) / vh * freq) * amp + 1) / 2 ∧
    (colorFor noise vw vh freq amp f).2.1 = 1 ∧
    (colorFor noise vw vh freq amp f).2.2 = 1 / 2 :=
  ⟨rfl, rfl, rfl, rfl⟩

/-- Claim C10: the noise field is seeded with only the low 32 bits of the
resolved seed: any two resolved seeds that are congruent modulo 2^32
construct the same noise field, so all noise samples coincide. -/
theorem noiseOf_truncates_seed (perlin : ℕ → ℝ → ℝ → ℝ) (s1 s2 : ℕ)
    (h : s1 % 2 ^ 32 = s2 % 2 ^ 32) :
    noiseOf perlin s1 = noiseOf perlin s2 ∧
    ∀ x y : ℝ, noiseOf perlin s1 x y = noiseOf perlin s2 x y := by
  have he : noiseOf perlin s1 = noiseOf perlin s2 := by
    unfold noiseOf; rw [h]
  exact ⟨he, fun x y => by rw [he]⟩

theorem noiseOf_truncates_seed_witness :
    (7 % 2 ^ 32 = 4294967303 % 2 ^ 32) ∧
    noiseOf (fun s x y => (s : ℝ) + x * y) 7 =
      noiseOf (fun s x y => (s : ℝ) + x * y) 4294967303 := by
  have h : (7 : ℕ) % 2 ^ 32 = 4294967303 % 2 ^ 32 := by norm_num
  exact ⟨h, (noiseOf_truncates_seed (fun s x y => (s : ℝ) + x * y)
    7 4294967303 h).1⟩

/-- Claim C2: after every tick, every particle's velocity equals
(sin θ, cos θ) for that tick's derived angle θ and therefore has
length exactly 1, for every value of heading_noise_amplitude. -/
theorem update_velocity_unit (noise : ℝ → ℝ → ℝ) (vw vh freq amp speed : ℝ)
    (g : List (List Flow)) (i j : ℕ) (f : Flow)
    (h : gridGet (update noise vw vh freq amp speed g) i j = some f) :
    f.vel.length = 1 := by
  rw [update, gridGet_map] at h
  rcases Option.map_eq_some'.mp h with ⟨f0, hf0, rfl⟩
  simp only [stepFlow, Vector2.length]
  rw [Real.sin_sq_add_cos_sq, Real.sqrt_one]

theorem update_velocity_unit_witness :
    gridGet (update (fun _ _ => 0) 1 1 1 1 1
        [[{ pos := Vector2.mk 0 0, vel := Vector2.mk 0 0 }]]) 0 0 =
      some (stepFlow (fun _ _ => 0) 1 1 1 1 1
        { pos := Vector2.mk 0 0, vel := Vector2.mk 0 0 }) ∧
    (stepFlow (fun _ _ => 0) 1 1 1 1 1
      { pos := Vector2.mk 0 0, vel := Vector2.mk 0 0 }).vel.length = 1 :=
  ⟨rfl, update_velocity_unit (fun _ _ => 0) 1 1 1 1 1
    [[{ pos := Vector2.mk 0 0, vel := Vector2.mk 0 0 }]] 0 0 _ rfl⟩

/-- Claim C5: for every grid cell (col, row), initialization places the
particle at base position (viewport_width * col / grid_size,
viewport_height * row / grid_size) plus independent per-axis jitter, so
(for a positive viewport and jitter drawn from [0, delta)) the initial
position lies in [base_x, base_x + viewport_width * delta) on the x axis
and in the analogous range on the y axis. -/
theorem initFlow_jitter_bound (xEnd yEnd : ℝ) (n x y : ℕ) (jx jy d : ℝ)
    (hx : 0 < xEnd) (hy : 0 < yEnd)
    (hjx0 : 0 ≤ jx) (hjx1 : jx < d) (hjy0 : 0 ≤ jy) (hjy1 : jy < d) :
    xEnd * ((x : ℝ) / (n : ℝ)) ≤ (initFlow xEnd yEnd n x y jx jy).pos.x ∧
    (initFlow xEnd yEnd n x y jx jy).pos.x <
      xEnd * ((x : ℝ) / (n : ℝ)) + xEnd * d ∧
    yEnd * ((y : ℝ) / (n : ℝ)) ≤ (initFlow xEnd yEnd n x y jx jy).pos.y ∧
    (initFlow xEnd yEnd n x y jx jy).pos.y <
      yEnd * ((y : ℝ) / (n : ℝ)) + yEnd * d := by
  simp only [initFlow]
  refine ⟨by nlinarith, by nlinarith, by nlinarith, by nlinarith⟩

theorem initFlow_jitter_bound_witness :
    (0 : ℝ) < 100 ∧
    (100 * (((1 : ℕ) : ℝ) / ((4 : ℕ) : ℝ)) ≤
        (initFlow 100 50 4 1 2 (1 / 20) (1 / 30)).pos.x ∧
      (initFlow 100 50 4 1 2 (1 / 20) (1 / 30)).pos.x <
        100 * (((1 : ℕ) : ℝ) / ((4 : ℕ) : ℝ)) + 100 * (1 / 10) ∧
      50 * (((2 : ℕ) : ℝ) / ((4 : ℕ) : ℝ)) ≤
        (initFlow 100 50 4 1 2 (1 / 20) (1 / 30)).pos.y ∧
      (initFlow 100 50 4 1 2 (1 / 20) (1 / 30)).pos.y <
        50 * (((2 : ℕ) : ℝ) / ((4 : ℕ) : ℝ)) + 50 * (1 / 10)) :=
  ⟨by norm_num,
    initFlow_jitter_bound 100 50 4 1 2 (1 / 20) (1 / 30) (1 / 10)
      (by norm_num) (by norm_num) (by norm_num) (by norm_num)
      (by norm_num) (by norm_num)⟩

/-- Claim C8: the tick updates particles independently and
order-independently: the particle at (i, j) after update is a function
only of the particle at (i, j) before update (plus the noise field and
parameters), so two grids that agree at (i, j) — however much they
differ elsewhere — still agree at (i, j) after update. -/
theorem update_independent (noise : ℝ → ℝ → ℝ) (vw vh freq amp speed : ℝ)
    (g1 g2 : List (List Flow)) (i j : ℕ)
    (h : gridGet g1 i j = gridGet g2 i j) :
    gridGet (update noise vw vh freq amp speed g1) i j =
      gridGet (update noise vw vh freq amp speed g2) i j := by
  rw [update, update, gridGet_map, gridGet_map, h]

theorem update_independent_witness :
    gridGet [[{ pos := Vector2.mk 0 0, vel := Vector2.mk 0 0 },
              { pos := Vector2.mk 1 1, vel := Vector2.mk 0 0 }]] 0 0 =
      gridGet [[{ pos := Vector2.mk 0 0, vel := Vector2.mk 0 0 },
                { pos := Vector2.mk 2 3, vel := Vector2.mk 0 0 }]] 0 0 ∧
    gridGet (update (fun _ _ => 0) 1 1 1 1 1
        [[{ pos := Vector2.mk 0 0, vel := Vector2.mk 0 0 },
          { pos := Vector2.mk 1 1, vel := Vector2.mk 0 0 }]]) 0 0 =
      gridGet (update (fun _ _ => 0) 1 1 1 1 1
        [[{ pos := Vector2.mk 0 0, vel := Vector2.mk 0 0 },
          { pos := Vector2.mk 2 3, vel := Vector2.mk 0 0 }]]) 0 0 :=
  ⟨rfl, update_independent (fun _ _ => 0) 1 1 1 1 1
    [[{ pos := Vector2.mk 0 0, vel := Vector2.mk 0 0 },
      { pos := Vector2.mk 1 1, vel := Vector2.mk 0 0 }]]
    [[{ pos := Vector2.mk 0 0, vel := Vector2.mk 0 0 },
      { pos := Vector2.mk 2 3, vel := Vector2.mk 0 0 }]] 0 0 rfl⟩

/-- Claim C9: invoking normalize on the zero vector divides by zero (the
divisor of its first in-place division is the zero length, so it
produces a non-finite f64 value), and under the precondition that the
input has non-zero length neither of normalize's two divisions has a
zero divisor, so this non-finite-producing path is never taken. -/
theorem normalize_zero_div (v : Vector2) (h : v.length ≠ 0) :
    normalizeDividesByZero (Vector2.mk 0 0) ∧ ¬ normalizeDividesByZero v := by
  constructor
  · exact Or.inl ((Vector2.length_eq_zero _).mpr ⟨rfl, rfl⟩)
  · intro hdz
    rcases hdz with h0 | h1
    · exact h h0
    · obtain ⟨hx, hy⟩ := (Vector2.length_eq_zero _).mp h1
      rcases div_eq_zero_iff.mp hx with hx0 | hl0
      · exact h ((Vector2.length_eq_zero v).mpr ⟨hx0, hy⟩)
      · exact h hl0

theorem normalize_zero_div_witness :
    (Vector2.mk 3 4).length ≠ 0 ∧
    (normalizeDividesByZero (Vector2.mk 0 0) ∧
      ¬ normalizeDividesByZero (Vector2.mk 3 4)) :=
  have h : (Vector2.mk 3 4).length ≠ 0 := by
    rw [length_three_four]; norm_num
  ⟨h, normalize_zero_div (Vector2.mk 3 4) h⟩

/-- Evaluating the source's normalize on (3, 4): x becomes 3 / 5, but y
is divided by the length of the already-mutated vector (3 / 5, 4),
which is sqrt(409 / 25), not 5. -/
theorem normalize_three_four :
    Vector2.normalize (Vector2.mk 3 4) =
      Vector2.mk (3 / 5) (4 / Real.sqrt (409 / 25)) := by
  have h5 : (Vector2.mk (3 : ℝ) 4).length = 5 := length_three_four
  have hmid : (Vector2.mk ((3 : ℝ) / 5) 4).length = Real.sqrt (409 / 25) := by
    rw [Vector2.length]
    congr 1
    norm_num
  simp only [Vector2.normalize, h5]
  rw [hmid]

/-- Claim C3 fails on the code: normalize does not divide both
components by the input's length (it divides y by the length of the
already-mutated vector), so on the input (3, 4) the result is neither
the input scaled by 1 / length nor a unit vector. -/
theorem normalize_three_four_not_unit :
    (Vector2.normalize (Vector2.mk 3 4)).length ≠ 1 ∧
    Vector2.normalize (Vector2.mk 3 4) ≠
      (Vector2.mk 3 4).div ((Vector2.mk 3 4).length) := by
  have hs : Real.sqrt ((409 : ℝ) / 25) ^ 2 = 409 / 25 :=
    Real.sq_sqrt (by norm_num)
  have hsne : Real.sqrt ((409 : ℝ) / 25) ≠ 0 := by
    intro h0
    rw [h0] at hs
    norm_num at hs
  constructor
  · rw [normalize_three_four, Vector2.length]
    intro h
    have harg : (((3 : ℝ) / 5) ^ 2 + (4 / Real.sqrt (409 / 25)) ^ 2) = 1 :=
      Real.sqrt_eq_one.mp h
    rw [div_pow, div_pow, hs] at harg
    norm_num at harg
  · rw [normalize_three_four, length_three_four, Vector2.div]
    intro heq
    have hy : (4 : ℝ) / Real.sqrt (409 / 25) = 4 / 5 :=
      congrArg Vector2.y heq
    have h55 : Real.sqrt ((409 : ℝ) / 25) = 5 := by
      rw [div_eq_div_iff hsne (by norm_num : (5 : ℝ) ≠ 0)] at hy
      linarith
    rw [h55] at hs
    norm_num at hs

end

end FlowField
